import Mathlib

/-!
Verification of the treelog core: the `Log` contract (`treelog/abc.py`) and
the record/replay engine `RecordLog` (`treelog/rec.py`), shallowly embedded.

File contents are modelled as byte sequences (`Bytes`).  Python strings used
for titles, messages, filenames and modes are Lean `String`s; severity levels
are `Nat` (debug=0 .. error=4).  File identifiers are `Option String`
(`none` models Python `None`).
-/

/-- Byte sequences, the contents of files written through `open`. -/
abbrev Bytes := List Nat

/-- Commands recorded by `RecordLog` (`rec.py`, `self._messages`): each entry
is one of `context_enter`, `context_exit`, `open_enter`, `open_exit`,
`write`. -/
inductive Cmd where
  | context_enter (title : String)
  | context_exit
  | open_enter (filename mode : String) (level : Nat) (id : Option String)
  | open_exit (data : Option Bytes)
  | write (text : String) (level : Nat)
deriving DecidableEq, Repr

/-- The seen-cache: a mapping from file identifier to the bytes captured the
first time that identifier was opened (`rec.py`, `self._seen`). -/
abbrev Cache := List (Option String × Bytes)

/-- State of a `RecordLog` instance: the recorded command sequence
(`self._messages`) and the seen-cache (`self._seen`). -/
structure RecordLog where
  messages : List Cmd
  seen : Cache
deriving DecidableEq, Repr

/-- Python truthiness of a file identifier: `None` and the empty string are
falsy, every other string is truthy (`rec.py`, `if id:`). -/
def truthy : Option String → Bool
  | none => false
  | some s => s != ""

/-- Modelled from the spec: `treelog/_io.py` is not under `src/`; per the spec
its `tempfile` resource is a real temporary buffer whose full contents are
captured on scope exit, i.e. reading it back yields exactly the concatenation
of the byte chunks written into it.  (The spec's `devnull` no-op sink needs no
definition: writes to it are discarded, so the cached branch of `openRun`
simply ignores the body's chunks.) -/
def tempfileContents (chunks : List Bytes) : Bytes := chunks.flatten

/-- `RecordLog.pushcontext`: append a `context_enter` command. -/
def RecordLog.pushcontext (r : RecordLog) (title : String) : RecordLog :=
  { r with messages := r.messages ++ [.context_enter title] }

/-- `RecordLog.popcontext`: if the last recorded command is a `context_enter`,
remove it; otherwise append `context_exit`. -/
def RecordLog.popcontext (r : RecordLog) : RecordLog :=
  match r.messages.getLast? with
  | some (.context_enter _) => { r with messages := r.messages.dropLast }
  | _ => { r with messages := r.messages ++ [.context_exit] }

/-- `RecordLog.write`: append a `write` command. -/
def RecordLog.write (r : RecordLog) (text : String) (level : Nat) : RecordLog :=
  { r with messages := r.messages ++ [.write text level] }

/-- One complete `RecordLog.open` scope.  The source appends `open_enter`,
runs the caller's body against either a devnull sink (identifier already in
the seen-cache) or a tempfile buffer, and in a `finally` appends
`open_exit data`.  The body is modelled by the byte chunks it writes into the
returned resource and a flag `raises` telling whether it raises before the
scope ends.  If the body raises in the tempfile branch, the contents are never
read back (`data` stays `None`) and the cache is not touched; in the devnull
branch `data` is the previously cached bytes either way. -/
def RecordLog.openRun (r : RecordLog) (filename mode : String) (level : Nat)
    (id : Option String) (chunks : List Bytes) (raises : Bool) : RecordLog :=
  match r.seen.lookup id with
  | some d =>
      { r with messages := r.messages ++
          [.open_enter filename mode level id, .open_exit (some d)] }
  | none =>
      if raises then
        { r with messages := r.messages ++
            [.open_enter filename mode level id, .open_exit none] }
      else
        { messages := r.messages ++
            [.open_enter filename mode level id,
             .open_exit (some (tempfileContents chunks))],
          seen := if truthy id then r.seen ++ [(id, tempfileContents chunks)]
                  else r.seen }

/-- One call of a recording session against the `Log` contract: a context
push, a context pop, a leveled message write, or an `open` scope whose body
writes the given byte chunks into the returned resource (and does not raise). -/
inductive SOp where
  | push (title : String)
  | pop
  | write (text : String) (level : Nat)
  | openFile (filename mode : String) (level : Nat) (id : Option String)
      (chunks : List Bytes)
deriving DecidableEq, Repr

/-- Drive a `RecordLog` with one session call. -/
def recordOp (r : RecordLog) : SOp → RecordLog
  | .push t => r.pushcontext t
  | .pop => r.popcontext
  | .write t l => r.write t l
  | .openFile fn m lv id cs => r.openRun fn m lv id cs false

/-- Record a whole session on a fresh `RecordLog`. -/
def recordSession (s : List SOp) : RecordLog :=
  s.foldl recordOp ⟨[], []⟩

/-- Running context depth of a session: `some` of the final depth when pops
never exceed pushes (the `Log` contract's stack discipline), `none` when some
prefix pops more contexts than were pushed. -/
def sDepth : Nat → List SOp → Option Nat
  | n, [] => some n
  | n, SOp.push _ :: rest => sDepth (n + 1) rest
  | n, SOp.pop :: rest =>
      match n with
      | 0 => none
      | k + 1 => sDepth k rest
  | n, SOp.write _ _ :: rest => sDepth n rest
  | n, SOp.openFile _ _ _ _ _ :: rest => sDepth n rest

/-- Observable operations of the fresh in-memory backend used as replay
target: a context entered, a context exited, a message written, and a file
opened/closed with the full bytes that were written into its resource. -/
inductive Ev where
  | enter (title : String)
  | exit
  | msg (text : String) (level : Nat)
  | file (filename mode : String) (level : Nat) (id : Option String)
      (contents : Bytes)
deriving DecidableEq, Repr

/-- Driving the in-memory backend directly with one session call. -/
def directOp (tr : List Ev) : SOp → List Ev
  | .push t => tr ++ [.enter t]
  | .pop => tr ++ [.exit]
  | .write t l => tr ++ [.msg t l]
  | .openFile fn m lv id cs => tr ++ [.file fn m lv id (tempfileContents cs)]

/-- Observable trace of driving the in-memory backend directly with the
original session calls. -/
def directTrace (s : List SOp) : List Ev :=
  s.foldl directOp []

/-- Spec-side reference semantics of one session call, written from the
spec's words: direct drive of the backend, modified by exactly two rules —
an `open` whose identifier is already in the seen-cache delivers the
previously cached bytes (its own writes are discarded), and a context popped
while it is the most recent pending operation is elided together with its
enter (`RecordLog`'s collapse rule). -/
def specCOp : Cache × List Ev → SOp → Cache × List Ev
  | (c, tr), .push t => (c, tr ++ [.enter t])
  | (c, tr), .pop =>
      match tr.getLast? with
      | some (.enter _) => (c, tr.dropLast)
      | _ => (c, tr ++ [.exit])
  | (c, tr), .write t l => (c, tr ++ [.msg t l])
  | (c, tr), .openFile fn m lv id cs =>
      match c.lookup id with
      | some d => (c, tr ++ [.file fn m lv id d])
      | none =>
          ((if truthy id then c ++ [(id, tempfileContents cs)] else c),
           tr ++ [.file fn m lv id (tempfileContents cs)])

/-- Spec-side reference trace of a session. -/
def specCTrace (s : List SOp) : List Ev :=
  (s.foldl specCOp ([], [])).2

/-- Frames of the explicit replay stack (`rec.py`, `contexts`): a pending
context scope, or a pending open scope together with the bytes written so far
into its file resource. -/
inductive RFrame where
  | ctx
  | file (filename mode : String) (level : Nat) (id : Option String)
      (buf : Bytes)
deriving DecidableEq, Repr

/-- One step of `RecordLog.replay` on the in-memory backend: dispatch on the
command, maintaining the backend trace and the replay stack.  `none` models
the structural failure (stack underflow / wrong frame kind) replay hits on a
corrupted sequence. -/
def replayStep : List Ev × List RFrame → Cmd → Option (List Ev × List RFrame)
  | (tr, stk), .context_enter t => some (tr ++ [.enter t], .ctx :: stk)
  | (tr, stk), .context_exit =>
      match stk with
      | .ctx :: rest => some (tr ++ [.exit], rest)
      | _ => none
  | (tr, stk), .open_enter fn m lv id => some (tr, .file fn m lv id [] :: stk)
  | (tr, stk), .open_exit data =>
      match stk with
      | .file fn m lv id buf :: rest =>
          let buf' := match data with
            | some d => buf ++ d
            | none => buf
          some (tr ++ [.file fn m lv id buf'], rest)
      | _ => none
  | (tr, stk), .write t l => some (tr ++ [.msg t l], stk)

/-- Run `RecordLog.replay`'s command loop over a command list. -/
def replayRun (st : List Ev × List RFrame) : List Cmd → Option (List Ev × List RFrame)
  | [] => some st
  | c :: rest =>
      match replayStep st c with
      | some st' => replayRun st' rest
      | none => none

/-- Observable backend trace of replaying a recording onto the fresh
in-memory backend (`none` when replay fails structurally). -/
def replayTrace (r : RecordLog) : Option (List Ev) :=
  (replayRun ([], []) r.messages).map Prod.fst

/-- Title of the context pushed by `Log.iter` for element index `i`
(`abc.py`): the plain `"{title} {i}"` text, or that text suffixed with the
percentage `100*(i+0.5)/length` when the effective length is known and
nonzero (`if length:`).  The percentage is kept as an exact rational; Python
renders it with `'{:.0f}%'` float formatting. -/
inductive ITitle where
  | plain (title : String) (i : Nat)
  | withPct (title : String) (i : Nat) (p : ℚ)
deriving DecidableEq, Repr

/-- The percentage `100 * (i + 0.5) / length` shown by `Log.iter`. -/
def pct (i len : Nat) : ℚ := 100 * ((i : ℚ) + 1 / 2) / (len : ℚ)

/-- Context title chosen by `Log.iter` for index `i` given the effective
length (explicit argument, else the iterable's size when available, else
unknown). -/
def ititle (title : String) (i : Nat) (effLen : Option Nat) : ITitle :=
  match effLen with
  | some len => if len ≠ 0 then .withPct title i (pct i len) else .plain title i
  | none => .plain title i

/-- Observable context operations emitted by `Log.iter`. -/
inductive IEv where
  | enter (t : ITitle)
  | exit
deriving DecidableEq, Repr

/-- Run of the `Log.iter` generator (`abc.py`) wrapped in `ClosingGenerator`:
`xs` are the remaining elements of the iterable, `i` the next index, and `k`
how many more times the consumer requests a value before closing the
generator (`close` runs the generator's `finally`, popping the pending
context; closing an unstarted generator runs nothing).  On each request the
generator pushes the context for index `i`, then either yields the next
element — with the pop emitted when the generator is resumed or closed — or
hits end-of-sequence, pops the probe context and signals exhaustion.  Returns
the emitted context trace and the values the consumer received. -/
def iterRun (title : String) (effLen : Option Nat) :
    List α → Nat → Nat → List IEv × List α
  | _, _, 0 => ([], [])
  | [], i, _ + 1 => ([.enter (ititle title i effLen), .exit], [])
  | x :: rest, i, k + 1 =>
      let p := iterRun title effLen rest (i + 1) k
      (.enter (ititle title i effLen) :: .exit :: p.1, x :: p.2)

/-- The per-index enter/exit pairs `Log.iter` is expected to emit:
`count` consecutive pairs starting at index `start`. -/
def iterPairs (title : String) (effLen : Option Nat) :
    Nat → Nat → List IEv
  | _, 0 => []
  | start, c + 1 =>
      .enter (ititle title start effLen) :: .exit ::
        iterPairs title effLen (start + 1) c

/-- The abstract `Log` contract (`abc.py`): the backend-specific primitive
operations, over a backend state type `S`.  (The `open` primitive is not
needed by the derived operations verified here.) -/
structure LogIface (S : Type) where
  pushcontext : S → String → S
  popcontext : S → S
  write : S → String → Nat → S

/-- The fresh in-memory backend as a `LogIface`: every primitive appends its
observable event to the trace. -/
def EvLog : LogIface (List Ev) where
  pushcontext := fun tr t => tr ++ [.enter t]
  popcontext := fun tr => tr ++ [.exit]
  write := fun tr t l => tr ++ [.msg t l]

/-- The derived `Log.context(text)` scope (`abc.py`): push the context, run
the protected block, and pop in a `finally` — the block's outcome (normal or
exceptional, `E` being the exception type) is returned unchanged.  The block
is modelled as a state transformer that also reports its outcome. -/
def Log.contextRun (L : LogIface S) (text : String) (body : S → S × Option E)
    (st : S) : S × Option E :=
  let r := body (L.pushcontext st text)
  (L.popcontext r.1, r.2)

/-- The leveled message methods produced by `Log._factory` (`abc.py`): join
the positional arguments with the separator and call `write` with the fixed
level. -/
def Log.printAt (L : LogIface S) (level : Nat) (st : S) (args : List String)
    (sep : String := " ") : S :=
  L.write st (String.intercalate sep args) level

/-- `Log.debug`: level 0. -/
def Log.debug (L : LogIface S) (st : S) (args : List String)
    (sep : String := " ") : S :=
  Log.printAt L 0 st args sep

/-- `Log.info`: level 1. -/
def Log.info (L : LogIface S) (st : S) (args : List String)
    (sep : String := " ") : S :=
  Log.printAt L 1 st args sep

/-- `Log.user`: level 2. -/
def Log.user (L : LogIface S) (st : S) (args : List String)
    (sep : String := " ") : S :=
  Log.printAt L 2 st args sep

/-- `Log.warning`: level 3. -/
def Log.warning (L : LogIface S) (st : S) (args : List String)
    (sep : String := " ") : S :=
  Log.printAt L 3 st args sep

/-- `Log.error`: level 4. -/
def Log.error (L : LogIface S) (st : S) (args : List String)
    (sep : String := " ") : S :=
  Log.printAt L 4 st args sep

/-- `ClosingGenerator` (`abc.py`): wraps a generator; `gen` holds the
remaining values of the wrapped producer, or `none` once the reference has
been cleared (by exhaustion or by `close`). -/
structure ClosingGenerator (A : Type) where
  gen : Option (List A)
deriving DecidableEq, Repr

/-- `ClosingGenerator.__next__`: raise `StopIteration` (`none`) if the
reference is cleared; otherwise pull the next value, clearing the reference
when the wrapped producer is exhausted. -/
def ClosingGenerator.next : ClosingGenerator A → Option A × ClosingGenerator A
  | ⟨none⟩ => (none, ⟨none⟩)
  | ⟨some []⟩ => (none, ⟨none⟩)
  | ⟨some (x :: rest)⟩ => (some x, ⟨some rest⟩)

/-- `ClosingGenerator.close`: if the wrapped producer is still referenced,
close it, clear the reference and return `True`; otherwise fall through
returning `None` (falsy). -/
def ClosingGenerator.close : ClosingGenerator A → Bool × ClosingGenerator A
  | ⟨none⟩ => (false, ⟨none⟩)
  | ⟨some _⟩ => (true, ⟨none⟩)

/-- `Closing.__del__` (`abc.py`): at finalization a `ResourceWarning` is
issued exactly when `close()` returns a true value. -/
def del_warns (g : ClosingGenerator A) : Bool :=
  g.close.1

/-- Whether the last recorded command is a `context_enter` — the condition
`RecordLog.popcontext` branches on. -/
def lastIsEnter (l : List Cmd) : Bool :=
  match l.getLast? with
  | some (.context_enter _) => true
  | _ => false

/-- Iterated `RecordLog.popcontext`. -/
def popN : Nat → RecordLog → RecordLog
  | 0, r => r
  | n + 1, r => popN n r.popcontext

/-- The recorded commands corresponding to one backend event: a completed
open scope is the adjacent `open_enter`/`open_exit` pair. -/
def cmdsOfEv : Ev → List Cmd
  | .enter t => [.context_enter t]
  | .exit => [.context_exit]
  | .msg t l => [.write t l]
  | .file fn m lv id d => [.open_enter fn m lv id, .open_exit (some d)]

/-- The recorded command list corresponding to a backend trace. -/
def fromEvents : List Ev → List Cmd
  | [] => []
  | e :: rest => cmdsOfEv e ++ fromEvents rest

/-- Running context depth of a backend trace: `some` of the excess of enters
over exits when no prefix exits more than it entered, else `none`. -/
def okFrom : Nat → List Ev → Option Nat
  | n, [] => some n
  | n, Ev.enter _ :: rest => okFrom (n + 1) rest
  | n, Ev.exit :: rest =>
      match n with
      | 0 => none
      | k + 1 => okFrom k rest
  | n, Ev.msg _ _ :: rest => okFrom n rest
  | n, Ev.file _ _ _ _ _ :: rest => okFrom n rest

/-- A small concrete session: a context, a message, and two open scopes
sharing a truthy identifier (the second is served from the seen-cache). -/
def demoSession : List SOp :=
  [SOp.push "build", SOp.write "start" 1,
   SOp.openFile "out.txt" "w" 1 (some "k") [[1, 2], [3]],
   SOp.openFile "cpy.txt" "w" 1 (some "k") [[9]],
   SOp.pop]

theorem lookup_append_of_none (l l' : Cache) (k : Option String)
    (h : l.lookup k = none) : (l ++ l').lookup k = l'.lookup k := by
  induction l with
  | nil => rfl
  | cons p rest ih =>
    obtain ⟨a, b⟩ := p
    cases hk : (k == a) with
    | true => simp [List.lookup, hk] at h
    | false =>
      simp only [List.lookup, hk] at h
      simpa [List.lookup, hk] using ih h

theorem lookup_append_self (l : Cache) (k : Option String) (d : Bytes)
    (h : l.lookup k = none) : (l ++ [(k, d)]).lookup k = some d := by
  rw [lookup_append_of_none l [(k, d)] k h]
  simp [List.lookup]

/-- Claim C2: `RecordLog.popcontext` removes the most recently appended
command when that command is a `context_enter`, and otherwise appends a
`context_exit`; in particular `pushcontext "A"` immediately followed by
`popcontext` leaves zero recorded commands. -/
theorem claim_C2 (r : RecordLog) :
    (∀ t, r.messages.getLast? = some (Cmd.context_enter t) →
        r.popcontext.messages = r.messages.dropLast) ∧
    (lastIsEnter r.messages = false →
        r.popcontext.messages = r.messages ++ [Cmd.context_exit]) ∧
    ((RecordLog.pushcontext ⟨[], []⟩ "A").popcontext.messages = []) := by
  refine ⟨?_, ?_, ?_⟩
  · intro t h
    simp [RecordLog.popcontext, h]
  · intro h
    unfold RecordLog.popcontext
    unfold lastIsEnter at h
    cases hl : r.messages.getLast? with
    | none => simp [hl]
    | some c =>
      rw [hl] at h
      cases c with
      | context_enter t => simp at h
      | context_exit => simp [hl]
      | open_enter fn m lv id => simp [hl]
      | open_exit d => simp [hl]
      | write t l => simp [hl]
  · rfl

theorem claim_C2_witness :
    (RecordLog.popcontext ⟨[Cmd.write "x" 1], []⟩).messages
      = [Cmd.write "x" 1, Cmd.context_exit] ∧
    (RecordLog.pushcontext ⟨[], []⟩ "A").popcontext.messages = [] := by
  refine ⟨?_, (claim_C2 ⟨[], []⟩).2.2⟩
  have h := (claim_C2 ⟨[Cmd.write "x" 1], []⟩).2.1 (by decide)
  simpa using h

theorem pop_replicate (m : Nat) :
    RecordLog.popcontext ⟨List.replicate m Cmd.context_exit, []⟩
      = ⟨List.replicate (m + 1) Cmd.context_exit, []⟩ := by
  cases m with
  | zero => rfl
  | succ j =>
    have h : (List.replicate (j + 1) Cmd.context_exit).getLast?
        = some Cmd.context_exit := by
      rw [List.replicate_succ']
      exact List.getLast?_concat _
    unfold RecordLog.popcontext
    simp only [h]
    have h2 : List.replicate (j + 1) Cmd.context_exit ++ [Cmd.context_exit]
        = List.replicate (j + 1 + 1) Cmd.context_exit :=
      (List.replicate_succ' ..).symm
    simp [h2]

theorem popN_replicate (n : Nat) : ∀ m : Nat,
    popN n ⟨List.replicate m Cmd.context_exit, []⟩
      = ⟨List.replicate (m + n) Cmd.context_exit, []⟩ := by
  induction n with
  | zero => intro m; simp [popN]
  | succ k ih =>
    intro m
    show popN k (RecordLog.popcontext _) = _
    rw [pop_replicate m, ih (m + 1)]
    have h3 : m + 1 + k = m + (k + 1) := by omega
    rw [h3]

/-- Claim C9: `RecordLog.popcontext` is total: on an empty recording, or when
the last command is not a `context_enter`, it appends a bare `context_exit`
and never fails; unbalanced pops are accepted with no underflow check. -/
theorem claim_C9 (r : RecordLog) :
    (r.messages = [] → r.popcontext.messages = [Cmd.context_exit]) ∧
    (lastIsEnter r.messages = false →
        r.popcontext.messages = r.messages ++ [Cmd.context_exit]) ∧
    (∀ n, (popN n ⟨[], []⟩).messages = List.replicate n Cmd.context_exit) := by
  refine ⟨?_, ?_, ?_⟩
  · intro h
    simp [RecordLog.popcontext, h]
  · intro h
    unfold RecordLog.popcontext
    unfold lastIsEnter at h
    cases hl : r.messages.getLast? with
    | none => simp [hl]
    | some c =>
      rw [hl] at h
      cases c with
      | context_enter t => simp at h
      | context_exit => simp [hl]
      | open_enter fn m lv id => simp [hl]
      | open_exit d => simp [hl]
      | write t l => simp [hl]
  · intro n
    have h := popN_replicate n 0
    simpa using congrArg RecordLog.messages h

theorem claim_C9_witness :
    (RecordLog.popcontext ⟨[], []⟩).messages = [Cmd.context_exit] ∧
    (popN 3 ⟨[], []⟩).messages = List.replicate 3 Cmd.context_exit :=
  ⟨(claim_C9 ⟨[], []⟩).1 rfl, (claim_C9 ⟨[], []⟩).2.2 3⟩

/-- Claim C10: if the body of a `RecordLog.open` scope raises and the
identifier was not in the seen-cache, the cache is left unchanged, the exit
record is `open_exit None`, and the only recording-state change is the
`open_enter`/`open_exit` pair. -/
theorem claim_C10 (r : RecordLog) (fn m : String) (lv : Nat)
    (id : Option String) (cs : List Bytes) (h : r.seen.lookup id = none) :
    (r.openRun fn m lv id cs true).seen = r.seen ∧
    (r.openRun fn m lv id cs true).messages
      = r.messages ++ [Cmd.open_enter fn m lv id, Cmd.open_exit none] := by
  unfold RecordLog.openRun
  rw [h]
  exact ⟨rfl, rfl⟩

theorem claim_C10_witness :
    (RecordLog.openRun ⟨[], []⟩ "a.bin" "wb" 0 (some "x") [[7]] true).seen = [] ∧
    (RecordLog.openRun ⟨[], []⟩ "a.bin" "wb" 0 (some "x") [[7]] true).messages
      = [Cmd.open_enter "a.bin" "wb" 0 (some "x"), Cmd.open_exit none] := by
  have h := claim_C10 ⟨[], []⟩ "a.bin" "wb" 0 (some "x") [[7]] rfl
  simpa using h

/-- Claim C7: every `RecordLog.open` scope appends an `open_enter` command
and then, always — including when the body raises — exactly one
`open_exit data` command; `data` is `None` when no bytes were ever captured,
and replay of an `open_exit None` closes the target's file resource without
writing anything into it. -/
theorem claim_C7 (r : RecordLog) (fn m : String) (lv : Nat)
    (id : Option String) (cs : List Bytes) (b : Bool) :
    (∃ d, (r.openRun fn m lv id cs b).messages
        = r.messages ++ [Cmd.open_enter fn m lv id, Cmd.open_exit d]) ∧
    (r.seen.lookup id = none → b = true →
        (r.openRun fn m lv id cs b).messages
          = r.messages ++ [Cmd.open_enter fn m lv id, Cmd.open_exit none]) ∧
    (∀ tr stk, replayRun (tr, stk)
        [Cmd.open_enter fn m lv id, Cmd.open_exit none]
      = some (tr ++ [Ev.file fn m lv id []], stk)) := by
  refine ⟨?_, ?_, ?_⟩
  · unfold RecordLog.openRun
    cases hl : r.seen.lookup id with
    | some d => exact ⟨some d, rfl⟩
    | none =>
      cases b with
      | true => exact ⟨none, rfl⟩
      | false => exact ⟨some (tempfileContents cs), rfl⟩
  · intro h hb
    subst hb
    unfold RecordLog.openRun
    rw [h]
    simp
  · intro tr stk
    rfl

theorem claim_C7_witness :
    ((RecordLog.openRun ⟨[], []⟩ "f.txt" "w" 2 (some "idA") [[4, 2]] true).messages
      = [Cmd.open_enter "f.txt" "w" 2 (some "idA"), Cmd.open_exit none]) ∧
    replayRun ([], [])
        [Cmd.open_enter "f.txt" "w" 2 (some "idA"), Cmd.open_exit none]
      = some ([Ev.file "f.txt" "w" 2 (some "idA") []], []) := by
  refine ⟨?_, ?_⟩
  · have h := (claim_C7 ⟨[], []⟩ "f.txt" "w" 2 (some "idA") [[4, 2]] true).2.1 rfl rfl
    simpa using h
  · have h := (claim_C7 ⟨[], []⟩ "f.txt" "w" 2 (some "idA") [[4, 2]] true).2.2 [] []
    simpa using h

/-- Claim C8: `ClosingGenerator.close` returns a true value exactly when the
wrapped producer was still open, close is idempotent, and once the generator
has been exhausted the reference is cleared, so every later `close` reports
already-closed and finalization issues no warning. -/
theorem claim_C8 (A : Type) (g : ClosingGenerator A) :
    (g.close.1 = true ↔ g.gen ≠ none) ∧
    g.close.2.gen = none ∧
    g.close.2.close = (false, g.close.2) ∧
    (ClosingGenerator.next (⟨some []⟩ : ClosingGenerator A)).2.close
      = (false, ⟨none⟩) ∧
    del_warns (ClosingGenerator.next (⟨some []⟩ : ClosingGenerator A)).2
      = false := by
  obtain ⟨o⟩ := g
  cases o with
  | none => simp [ClosingGenerator.close, ClosingGenerator.next, del_warns]
  | some l => simp [ClosingGenerator.close, ClosingGenerator.next, del_warns]

/-- Claim C5: each of the five leveled message methods joins its positional
arguments with the separator (default a single space) and calls `write` with
that string and its fixed level; `warning "a" "b"` is `write "a b" 3` and
`warning "a" "b"` with separator `"-"` writes `"a-b"`. -/
theorem claim_C5 (S : Type) (L : LogIface S) (st : S) (args : List String)
    (sep : String) :
    Log.debug L st args sep = L.write st (String.intercalate sep args) 0 ∧
    Log.info L st args sep = L.write st (String.intercalate sep args) 1 ∧
    Log.user L st args sep = L.write st (String.intercalate sep args) 2 ∧
    Log.warning L st args sep = L.write st (String.intercalate sep args) 3 ∧
    Log.error L st args sep = L.write st (String.intercalate sep args) 4 ∧
    Log.warning L st ["a", "b"] = L.write st "a b" 3 ∧
    Log.warning L st ["a", "b"] "-" = L.write st "a-b" 3 := by
  refine ⟨rfl, rfl, rfl, rfl, rfl, ?_, ?_⟩
  · have h : String.intercalate " " ["a", "b"] = "a b" := by decide
    show Log.printAt L 3 st ["a", "b"] " " = L.write st "a b" 3
    rw [Log.printAt, h]
  · have h : String.intercalate "-" ["a", "b"] = "a-b" := by decide
    show Log.printAt L 3 st ["a", "b"] "-" = L.write st "a-b" 3
    rw [Log.printAt, h]

/-- Claim C6: the derived `context(text)` scope calls `pushcontext text` on
entry and `popcontext` exactly once on exit in every case — including when
the protected block raises — and the block's exception propagates unchanged,
neither suppressed nor logged. -/
theorem claim_C6 (E : Type) (text : String) (evs : List Ev) (exc : Option E)
    (tr : List Ev) :
    Log.contextRun EvLog text (fun st => (st ++ evs, exc)) tr
      = (tr ++ Ev.enter text :: evs ++ [Ev.exit], exc) := by
  simp [Log.contextRun, EvLog, List.append_assoc]

/-- Claim C3: two `RecordLog.open` scopes with the same truthy identifier
store exactly one captured byte buffer in the seen-cache — the one from the
first scope, never overwritten — the second scope's resource is a no-op sink
whose writes are discarded, and replay writes the cached bytes into both
corresponding file resources on the target. -/
theorem claim_C3 (r0 : RecordLog) (fn1 m1 fn2 m2 : String) (lv1 lv2 : Nat)
    (id : Option String) (cs1 cs2 : List Bytes)
    (h0 : r0.seen.lookup id = none) (ht : truthy id = true) :
    (r0.openRun fn1 m1 lv1 id cs1 false).seen
      = r0.seen ++ [(id, tempfileContents cs1)] ∧
    ((r0.openRun fn1 m1 lv1 id cs1 false).openRun fn2 m2 lv2 id cs2 false).seen
      = r0.seen ++ [(id, tempfileContents cs1)] ∧
    ((r0.openRun fn1 m1 lv1 id cs1 false).openRun fn2 m2 lv2 id cs2 false).messages
      = r0.messages ++
          [Cmd.open_enter fn1 m1 lv1 id,
           Cmd.open_exit (some (tempfileContents cs1)),
           Cmd.open_enter fn2 m2 lv2 id,
           Cmd.open_exit (some (tempfileContents cs1))] ∧
    (∀ tr stk, replayRun (tr, stk)
        [Cmd.open_enter fn1 m1 lv1 id,
         Cmd.open_exit (some (tempfileContents cs1)),
         Cmd.open_enter fn2 m2 lv2 id,
         Cmd.open_exit (some (tempfileContents cs1))]
      = some (tr ++ [Ev.file fn1 m1 lv1 id (tempfileContents cs1),
                     Ev.file fn2 m2 lv2 id (tempfileContents cs1)], stk)) := by
  have hfirst : r0.openRun fn1 m1 lv1 id cs1 false
      = { messages := r0.messages ++
            [Cmd.open_enter fn1 m1 lv1 id,
             Cmd.open_exit (some (tempfileContents cs1))],
          seen := r0.seen ++ [(id, tempfileContents cs1)] } := by
    unfold RecordLog.openRun
    rw [h0]
    simp [ht]
  have hcached : (r0.seen ++ [(id, tempfileContents cs1)]).lookup id
      = some (tempfileContents cs1) := lookup_append_self _ _ _ h0
  have hsecond : (r0.openRun fn1 m1 lv1 id cs1 false).openRun fn2 m2 lv2 id cs2 false
      = { messages := r0.messages ++
            [Cmd.open_enter fn1 m1 lv1 id,
             Cmd.open_exit (some (tempfileContents cs1)),
             Cmd.open_enter fn2 m2 lv2 id,
             Cmd.open_exit (some (tempfileContents cs1))],
          seen := r0.seen ++ [(id, tempfileContents cs1)] } := by
    rw [hfirst]
    unfold RecordLog.openRun
    simp only [hcached]
    simp
  refine ⟨by rw [hfirst], by rw [hsecond], by rw [hsecond], ?_⟩
  intro tr stk
  show replayRun (tr, stk) _ = _
  simp [replayRun, replayStep, List.append_assoc]

theorem claim_C3_witness :
    ((RecordLog.openRun ⟨[], []⟩ "o1" "w" 1 (some "k") [[1], [2]] false).openRun
        "o2" "w" 2 (some "k") [[9]] false).seen
      = [(some "k", tempfileContents [[1], [2]])] ∧
    ((RecordLog.openRun ⟨[], []⟩ "o1" "w" 1 (some "k") [[1], [2]] false).openRun
        "o2" "w" 2 (some "k") [[9]] false).messages
      = [Cmd.open_enter "o1" "w" 1 (some "k"),
         Cmd.open_exit (some (tempfileContents [[1], [2]])),
         Cmd.open_enter "o2" "w" 2 (some "k"),
         Cmd.open_exit (some (tempfileContents [[1], [2]]))] ∧
    replayRun ([], [])
        [Cmd.open_enter "o1" "w" 1 (some "k"),
         Cmd.open_exit (some (tempfileContents [[1], [2]])),
         Cmd.open_enter "o2" "w" 2 (some "k"),
         Cmd.open_exit (some (tempfileContents [[1], [2]]))]
      = some ([Ev.file "o1" "w" 1 (some "k") (tempfileContents [[1], [2]]),
               Ev.file "o2" "w" 2 (some "k") (tempfileContents [[1], [2]])], []) := by
  have h := claim_C3 ⟨[], []⟩ "o1" "w" "o2" "w" 1 2 (some "k") [[1], [2]] [[9]]
    rfl rfl
  exact ⟨by simpa using h.2.1, by simpa using h.2.2.1, by simpa using h.2.2.2 [] []⟩

theorem iterRun_eq (A : Type) (title : String) (effLen : Option Nat) :
    ∀ (xs : List A) (i k : Nat),
    iterRun title effLen xs i k
      = (iterPairs title effLen i
           (min k xs.length + if xs.length < k then 1 else 0),
         xs.take k) := by
  intro xs
  induction xs with
  | nil =>
    intro i k
    cases k with
    | zero => simp [iterRun, iterPairs]
    | succ j => simp [iterRun, iterPairs]
  | cons x rest ih =>
    intro i k
    cases k with
    | zero => simp [iterRun, iterPairs]
    | succ j =>
      have harith : min (j + 1) (x :: rest).length
            + (if (x :: rest).length < j + 1 then 1 else 0)
          = (min j rest.length + if rest.length < j then 1 else 0) + 1 := by
        simp only [List.length_cons]
        rcases Nat.lt_or_ge rest.length j with h | h
        · rw [if_pos h, if_pos (by omega)]
          omega
        · rw [if_neg (by omega), if_neg (by omega)]
          omega
      rw [harith]
      show (IEv.enter (ititle title i effLen) :: IEv.exit ::
              (iterRun title effLen rest (i + 1) j).1,
            x :: (iterRun title effLen rest (i + 1) j).2)
          = (iterPairs title effLen i
               ((min j rest.length + if rest.length < j then 1 else 0) + 1),
             (x :: rest).take (j + 1))
      rw [ih (i + 1) j]
      simp [iterPairs]

/-- Claim C4 (amended): `Log.iter` pushes for each consumed element index `i`
a context titled `"{title} {i}"`, suffixed with the percentage
`100*(i+0.5)/length` when the effective length is known and nonzero, and pops
it before advancing, with early abandonment still popping the pending
context; when the consumer iterates to exhaustion, one additional probe
context — for the first index past the end — is pushed and immediately
popped before end-of-sequence is signalled. -/
theorem claim_C4 (A : Type) (title : String) (effLen : Option Nat)
    (xs : List A) (k : Nat) :
    iterRun title effLen xs 0 k
      = (iterPairs title effLen 0
           (min k xs.length + if xs.length < k then 1 else 0),
         xs.take k) :=
  iterRun_eq A title effLen xs 0 k

/-- Claim C4 fails as stated: with a one-element iterable driven to
exhaustion, the consumer consumes only element 0, yet a trailing probe
context for index 1 is pushed (and popped) when end-of-sequence is hit —
contradicting "only contexts for consumed elements are ever pushed" and
"signals end-of-sequence without emitting a trailing context". -/
theorem claim_C4_cex :
    (iterRun "item" none ([7] : List Nat) 0 2).2 = [7] ∧
    (iterRun "item" none ([7] : List Nat) 0 2).1
      = [IEv.enter (ITitle.plain "item" 0), IEv.exit,
         IEv.enter (ITitle.plain "item" 1), IEv.exit] := by
  constructor <;> rfl

theorem fromEvents_append (tr tr' : List Ev) :
    fromEvents (tr ++ tr') = fromEvents tr ++ fromEvents tr' := by
  induction tr with
  | nil => rfl
  | cons e rest ih => simp [fromEvents, ih, List.append_assoc]

theorem okFrom_append (l l' : List Ev) :
    ∀ n, okFrom n (l ++ l') = (okFrom n l).bind fun m => okFrom m l' := by
  induction l with
  | nil => intro n; simp [okFrom]
  | cons e rest ih =>
    intro n
    cases e with
    | enter t => simpa [okFrom] using ih (n + 1)
    | exit =>
      cases n with
      | zero => simp [okFrom]
      | succ k => simpa [okFrom] using ih k
    | msg t l0 => simpa [okFrom] using ih n
    | file fn m lv id d => simpa [okFrom] using ih n

theorem replay_fromEvents :
    ∀ (tr : List Ev) (k n : Nat) (tr0 : List Ev),
    okFrom k tr = some n →
    replayRun (tr0, List.replicate k RFrame.ctx) (fromEvents tr)
      = some (tr0 ++ tr, List.replicate n RFrame.ctx) := by
  intro tr
  induction tr with
  | nil =>
    intro k n tr0 h
    simp only [okFrom, Option.some.injEq] at h
    subst h
    simp [fromEvents, replayRun]
  | cons e rest ih =>
    intro k n tr0 h
    cases e with
    | enter t =>
      simp only [okFrom] at h
      have hih := ih (k + 1) n (tr0 ++ [Ev.enter t]) h
      simp only [fromEvents, cmdsOfEv, List.cons_append, List.nil_append]
      simp only [replayRun, replayStep]
      rw [show RFrame.ctx :: List.replicate k RFrame.ctx
            = List.replicate (k + 1) RFrame.ctx from (List.replicate_succ ..).symm]
      rw [hih]
      simp [List.append_assoc]
    | exit =>
      simp only [okFrom] at h
      cases k with
      | zero => simp at h
      | succ j =>
        have hih := ih j n (tr0 ++ [Ev.exit]) h
        simp only [fromEvents, cmdsOfEv, List.cons_append, List.nil_append]
        rw [List.replicate_succ]
        simp only [replayRun, replayStep]
        rw [hih]
        simp [List.append_assoc]
    | msg t l0 =>
      simp only [okFrom] at h
      have hih := ih k n (tr0 ++ [Ev.msg t l0]) h
      simp only [fromEvents, cmdsOfEv, List.cons_append, List.nil_append]
      simp only [replayRun, replayStep]
      rw [hih]
      simp [List.append_assoc]
    | file fn m lv id d =>
      simp only [okFrom] at h
      have hih := ih k n (tr0 ++ [Ev.file fn m lv id d]) h
      simp only [fromEvents, cmdsOfEv, List.cons_append, List.nil_append]
      simp only [replayRun, replayStep, List.nil_append]
      rw [hih]
      simp [List.append_assoc]

theorem getLast?_append_pair (l : List α) (a b : α) :
    (l ++ [a, b]).getLast? = some b := by
  rw [show l ++ [a, b] = (l ++ [a]) ++ [b] from by simp]
  exact List.getLast?_concat _

theorem popcontext_eq_of_lastEnter (r : RecordLog) (t : String)
    (h : r.messages.getLast? = some (Cmd.context_enter t)) :
    r.popcontext = ⟨r.messages.dropLast, r.seen⟩ := by
  unfold RecordLog.popcontext
  rw [h]

theorem popcontext_eq_of_notEnter (r : RecordLog) (cmd : Cmd)
    (h : r.messages.getLast? = some cmd)
    (hne : ∀ t, cmd ≠ Cmd.context_enter t) :
    r.popcontext = ⟨r.messages ++ [Cmd.context_exit], r.seen⟩ := by
  unfold RecordLog.popcontext
  rw [h]
  cases cmd with
  | context_enter t => exact absurd rfl (hne t)
  | context_exit => rfl
  | open_enter a b lv id => rfl
  | open_exit d => rfl
  | write a b => rfl

theorem specCOp_pop_enter (c : Cache) (tr : List Ev) (t : String)
    (h : tr.getLast? = some (Ev.enter t)) :
    specCOp (c, tr) SOp.pop = (c, tr.dropLast) := by
  simp [specCOp, h]

theorem specCOp_pop_notEnter (c : Cache) (tr : List Ev) (e : Ev)
    (h : tr.getLast? = some e) (hne : ∀ t, e ≠ Ev.enter t) :
    specCOp (c, tr) SOp.pop = (c, tr ++ [Ev.exit]) := by
  cases e with
  | enter t => exact absurd rfl (hne t)
  | exit => simp [specCOp, h]
  | msg a b => simp [specCOp, h]
  | file a b lv id d => simp [specCOp, h]

theorem record_spec :
    ∀ (s : List SOp) (r : RecordLog) (c : Cache) (tr : List Ev) (n n' : Nat),
    r.seen = c → r.messages = fromEvents tr → okFrom 0 tr = some n →
    sDepth n s = some n' →
    (s.foldl recordOp r).seen = (s.foldl specCOp (c, tr)).1 ∧
    (s.foldl recordOp r).messages = fromEvents (s.foldl specCOp (c, tr)).2 ∧
    okFrom 0 (s.foldl specCOp (c, tr)).2 = some n' := by
  intro s
  induction s with
  | nil =>
    intro r c tr n n' hc h1 h2 h3
    simp only [sDepth, Option.some.injEq] at h3
    subst h3
    exact ⟨hc, h1, h2⟩
  | cons op rest ih =>
    intro r c tr n n' hc h1 h2 h3
    cases op with
    | push t =>
      simp only [List.foldl_cons]
      have hmsg : (recordOp r (SOp.push t)).messages
          = fromEvents (tr ++ [Ev.enter t]) := by
        show r.messages ++ [Cmd.context_enter t] = _
        rw [fromEvents_append, h1]
        rfl
      have hok : okFrom 0 (tr ++ [Ev.enter t]) = some (n + 1) := by
        rw [okFrom_append, h2]
        rfl
      exact ih (recordOp r (SOp.push t)) c (tr ++ [Ev.enter t]) (n + 1) n'
        hc hmsg hok h3
    | write t l =>
      simp only [List.foldl_cons]
      have hmsg : (recordOp r (SOp.write t l)).messages
          = fromEvents (tr ++ [Ev.msg t l]) := by
        show r.messages ++ [Cmd.write t l] = _
        rw [fromEvents_append, h1]
        rfl
      have hok : okFrom 0 (tr ++ [Ev.msg t l]) = some n := by
        rw [okFrom_append, h2]
        rfl
      exact ih (recordOp r (SOp.write t l)) c (tr ++ [Ev.msg t l]) n n'
        hc hmsg hok h3
    | pop =>
      simp only [List.foldl_cons]
      cases n with
      | zero => simp [sDepth] at h3
      | succ j =>
        have h3' : sDepth j rest = some n' := h3
        rcases List.eq_nil_or_concat tr with rfl | ⟨tr0, e, rfl⟩
        · simp [okFrom] at h2
        · simp only [List.concat_eq_append] at h1 h2 ⊢
          cases e with
          | enter t =>
            have hlast : (tr0 ++ [Ev.enter t]).getLast? = some (Ev.enter t) :=
              List.getLast?_concat _
            have hmlast : r.messages.getLast? = some (Cmd.context_enter t) := by
              rw [h1, fromEvents_append]
              exact List.getLast?_concat _
            have hdrop : r.messages.dropLast = fromEvents tr0 := by
              rw [h1, fromEvents_append]
              exact List.dropLast_concat ..
            have hrec : recordOp r SOp.pop = ⟨fromEvents tr0, c⟩ := by
              show r.popcontext = _
              rw [popcontext_eq_of_lastEnter r t hmlast, hdrop, hc]
            have hspec : specCOp (c, tr0 ++ [Ev.enter t]) SOp.pop = (c, tr0) := by
              rw [specCOp_pop_enter c _ t hlast, List.dropLast_concat]
            have hok0 : okFrom 0 tr0 = some j := by
              rw [okFrom_append] at h2
              cases hk : okFrom 0 tr0 with
              | none => rw [hk] at h2; simp at h2
              | some m =>
                rw [hk] at h2
                simp [okFrom] at h2
                rw [h2]
            rw [hrec, hspec]
            exact ih ⟨fromEvents tr0, c⟩ c tr0 j n' rfl rfl hok0 h3'
          | exit =>
            have hlast : (tr0 ++ [Ev.exit]).getLast? = some Ev.exit :=
              List.getLast?_concat _
            have hmlast : r.messages.getLast? = some Cmd.context_exit := by
              rw [h1, fromEvents_append]
              exact List.getLast?_concat _
            have hrec : recordOp r SOp.pop
                = ⟨r.messages ++ [Cmd.context_exit], c⟩ := by
              show r.popcontext = _
              rw [popcontext_eq_of_notEnter r _ hmlast (by intro t h; cases h), hc]
            have hspec : specCOp (c, tr0 ++ [Ev.exit]) SOp.pop
                = (c, (tr0 ++ [Ev.exit]) ++ [Ev.exit]) :=
              specCOp_pop_notEnter c _ _ hlast (by intro t h; cases h)
            have hmsg : (recordOp r SOp.pop).messages
                = fromEvents ((tr0 ++ [Ev.exit]) ++ [Ev.exit]) := by
              rw [hrec, fromEvents_append (tr0 ++ [Ev.exit]), h1]
              rfl
            have hok : okFrom 0 ((tr0 ++ [Ev.exit]) ++ [Ev.exit]) = some j := by
              rw [okFrom_append, h2]
              rfl
            rw [hspec]
            exact ih (recordOp r SOp.pop) c ((tr0 ++ [Ev.exit]) ++ [Ev.exit]) j n'
              (by rw [hrec]) hmsg hok h3'
          | msg t l =>
            have hlast : (tr0 ++ [Ev.msg t l]).getLast? = some (Ev.msg t l) :=
              List.getLast?_concat _
            have hmlast : r.messages.getLast? = some (Cmd.write t l) := by
              rw [h1, fromEvents_append]
              exact List.getLast?_concat _
            have hrec : recordOp r SOp.pop
                = ⟨r.messages ++ [Cmd.context_exit], c⟩ := by
              show r.popcontext = _
              rw [popcontext_eq_of_notEnter r _ hmlast (by intro u h; cases h), hc]
            have hspec : specCOp (c, tr0 ++ [Ev.msg t l]) SOp.pop
                = (c, (tr0 ++ [Ev.msg t l]) ++ [Ev.exit]) :=
              specCOp_pop_notEnter c _ _ hlast (by intro u h; cases h)
            have hmsg : (recordOp r SOp.pop).messages
                = fromEvents ((tr0 ++ [Ev.msg t l]) ++ [Ev.exit]) := by
              rw [hrec, fromEvents_append (tr0 ++ [Ev.msg t l]), h1]
              rfl
            have hok : okFrom 0 ((tr0 ++ [Ev.msg t l]) ++ [Ev.exit]) = some j := by
              rw [okFrom_append, h2]
              rfl
            rw [hspec]
            exact ih (recordOp r SOp.pop) c ((tr0 ++ [Ev.msg t l]) ++ [Ev.exit]) j n'
              (by rw [hrec]) hmsg hok h3'
          | file fn m lv id d =>
            have hlast : (tr0 ++ [Ev.file fn m lv id d]).getLast?
                = some (Ev.file fn m lv id d) :=
              List.getLast?_concat _
            have hmlast : r.messages.getLast? = some (Cmd.open_exit (some d)) := by
              rw [h1, fromEvents_append]
              exact getLast?_append_pair ..
            have hrec : recordOp r SOp.pop
                = ⟨r.messages ++ [Cmd.context_exit], c⟩ := by
              show r.popcontext = _
              rw [popcontext_eq_of_notEnter r _ hmlast (by intro u h; cases h), hc]
            have hspec : specCOp (c, tr0 ++ [Ev.file fn m lv id d]) SOp.pop
                = (c, (tr0 ++ [Ev.file fn m lv id d]) ++ [Ev.exit]) :=
              specCOp_pop_notEnter c _ _ hlast (by intro u h; cases h)
            have hmsg : (recordOp r SOp.pop).messages
                = fromEvents ((tr0 ++ [Ev.file fn m lv id d]) ++ [Ev.exit]) := by
              rw [hrec, fromEvents_append (tr0 ++ [Ev.file fn m lv id d]), h1]
              rfl
            have hok : okFrom 0 ((tr0 ++ [Ev.file fn m lv id d]) ++ [Ev.exit])
                = some j := by
              rw [okFrom_append, h2]
              rfl
            rw [hspec]
            exact ih (recordOp r SOp.pop) c
              ((tr0 ++ [Ev.file fn m lv id d]) ++ [Ev.exit]) j n'
              (by rw [hrec]) hmsg hok h3'
    | openFile fn m lv id cs =>
      simp only [List.foldl_cons]
      have h3' : sDepth n rest = some n' := h3
      cases hl : c.lookup id with
      | some d =>
        have hrec : recordOp r (SOp.openFile fn m lv id cs)
            = ⟨r.messages ++ [Cmd.open_enter fn m lv id, Cmd.open_exit (some d)],
               c⟩ := by
          show r.openRun fn m lv id cs false = _
          unfold RecordLog.openRun
          rw [hc, hl]
        have hspec : specCOp (c, tr) (SOp.openFile fn m lv id cs)
            = (c, tr ++ [Ev.file fn m lv id d]) := by
          simp [specCOp, hl]
        have hmsg : (recordOp r (SOp.openFile fn m lv id cs)).messages
            = fromEvents (tr ++ [Ev.file fn m lv id d]) := by
          rw [hrec, fromEvents_append, h1]
          rfl
        have hok : okFrom 0 (tr ++ [Ev.file fn m lv id d]) = some n := by
          rw [okFrom_append, h2]
          rfl
        rw [hspec]
        exact ih (recordOp r (SOp.openFile fn m lv id cs)) c
          (tr ++ [Ev.file fn m lv id d]) n n' (by rw [hrec]) hmsg hok h3'
      | none =>
        have hrec : recordOp r (SOp.openFile fn m lv id cs)
            = ⟨r.messages ++ [Cmd.open_enter fn m lv id,
                 Cmd.open_exit (some (tempfileContents cs))],
               if truthy id then c ++ [(id, tempfileContents cs)] else c⟩ := by
          show r.openRun fn m lv id cs false = _
          unfold RecordLog.openRun
          rw [hc, hl]
          simp
        have hspec : specCOp (c, tr) (SOp.openFile fn m lv id cs)
            = ((if truthy id then c ++ [(id, tempfileContents cs)] else c),
               tr ++ [Ev.file fn m lv id (tempfileContents cs)]) := by
          simp [specCOp, hl]
        have hmsg : (recordOp r (SOp.openFile fn m lv id cs)).messages
            = fromEvents (tr ++ [Ev.file fn m lv id (tempfileContents cs)]) := by
          rw [hrec, fromEvents_append, h1]
          rfl
        have hok : okFrom 0 (tr ++ [Ev.file fn m lv id (tempfileContents cs)])
            = some n := by
          rw [okFrom_append, h2]
          rfl
        rw [hspec]
        exact ih (recordOp r (SOp.openFile fn m lv id cs))
          (if truthy id then c ++ [(id, tempfileContents cs)] else c)
          (tr ++ [Ev.file fn m lv id (tempfileContents cs)]) n n'
          (by rw [hrec]) hmsg hok h3'

/-- Claim C1 (amended): for every contract-conforming session (pops never
exceeding pushes), recording with `RecordLog` and replaying onto a fresh
in-memory backend produces exactly the trace of driving that backend
directly, modified by two rules: an `open` whose identifier was already in
the seen-cache still delivers the previously cached bytes, and a context
pushed and popped with no intervening recorded command is elided entirely
(`specCOp` is the direct drive plus exactly these two rules). -/
theorem claim_C1 (s : List SOp) (n : Nat) (h : sDepth 0 s = some n) :
    replayTrace (recordSession s) = some (specCTrace s) := by
  obtain ⟨-, h2, h3⟩ := record_spec s ⟨[], []⟩ [] [] 0 n rfl rfl rfl h
  unfold replayTrace recordSession specCTrace
  rw [h2]
  have hr := replay_fromEvents ((s.foldl specCOp ([], [])).2) 0 n [] h3
  simp only [List.replicate, List.nil_append] at hr
  rw [hr]
  rfl

theorem claim_C1_witness :
    sDepth 0 demoSession = some 0 ∧
    replayTrace (recordSession demoSession) = some (specCTrace demoSession) :=
  ⟨by decide, claim_C1 demoSession 0 (by decide)⟩

/-- Claim C1 fails as stated: the session push "A" then pop has no `open`
at all — so the claimed sole exception (seen-cache hits) does not apply —
yet replay produces the empty backend trace while driving the backend
directly enters and exits the context "A": the recording collapse rule is a
second source of observable difference. -/
theorem claim_C1_cex :
    replayTrace (recordSession [SOp.push "A", SOp.pop]) = some [] ∧
    directTrace [SOp.push "A", SOp.pop] = [Ev.enter "A", Ev.exit] ∧
    replayTrace (recordSession [SOp.push "A", SOp.pop])
      ≠ some (directTrace [SOp.push "A", SOp.pop]) := by
  refine ⟨rfl, rfl, ?_⟩
  decide
